import Mathlib

/-!
Shallow embedding of the autokey-rs event-interception engine
(src/key.rs, src/config.rs, src/key_grabber.rs, src/display.rs,
src/daemon.rs, src/main.rs) and proofs about its specification claims.
-/

namespace Autokey

/-! ### Key/Modifier model (src/key.rs)

`Modifier` is one of exactly 8 named values (Shift, CapsLock, Ctrl, Alt,
NumLock, Mod3, Super, Mod5) represented as bit positions 0..7 of a
fixed-width set (`enumset::EnumSet<Modifier>`).  We embed a modifier as
its bit position and a modifier set as a `Finset (Fin 8)`.

`Keycode` wraps a `NonZeroU8`: a small positive integer, never zero. -/

abbrev Modifier := Fin 8

abbrev ModifierSet := Finset Modifier

def Keycode : Type := {n : Fin 256 // n ≠ 0}

instance : DecidableEq Keycode := fun a b => by
  unfold Keycode; infer_instance

/-- `Keycode::try_from(u8)`: succeeds exactly on nonzero values. -/
def Keycode.tryFrom (value : Fin 256) : Option Keycode :=
  if h : value = 0 then none else some ⟨value, h⟩

def Keycode.val (k : Keycode) : Fin 256 := k.1

/-! ### ModDisposition and ModSpec (src/config.rs) -/

/-- Per-modifier tri-state disposition (src/config.rs `ModDisposition`). -/
inductive ModDisposition where
  | forbidden
  | allowed
  | required
deriving DecidableEq, Repr

/-- A fixed-size record of 8 dispositions, one per modifier
(src/config.rs `ModSpec`). -/
structure ModSpec where
  shift : ModDisposition
  capslock : ModDisposition
  ctrl : ModDisposition
  alt : ModDisposition
  numlock : ModDisposition
  mod3 : ModDisposition
  super_ : ModDisposition
  mod5 : ModDisposition
deriving DecidableEq, Repr

namespace ModSpec

/-- `ModSpec::to_array` (src/config.rs). -/
def toArray (s : ModSpec) : List ModDisposition :=
  [s.shift, s.capslock, s.ctrl, s.alt, s.numlock, s.mod3, s.super_, s.mod5]

/-- `ModSpec::disposition_of`: index `to_array` by the modifier's position. -/
def dispositionOf (s : ModSpec) (m : Modifier) : ModDisposition :=
  (toArray s).get ⟨m.val, by simp [toArray]⟩

/-- `ModSpec::with_disposition`: the set of modifiers having a given
disposition. -/
def withDisposition (s : ModSpec) (d : ModDisposition) : ModifierSet :=
  Finset.univ.filter (fun m => s.dispositionOf m = d)

/-- `ModSpec::required_set`. -/
def requiredSet (s : ModSpec) : ModifierSet := s.withDisposition .required

/-- `ModSpec::allowed_set`. -/
def allowedSet (s : ModSpec) : ModifierSet := s.withDisposition .allowed

/-- `ModSpec::forbidden_set`. -/
def forbiddenSet (s : ModSpec) : ModifierSet := s.withDisposition .forbidden

/-- `ModSpec::matches` (src/config.rs lines 154-164): scan all 8 modifiers;
a Required modifier that is absent or a Forbidden modifier that is present
short-circuits to `false`. -/
def matchesActive (s : ModSpec) (modifiers : ModifierSet) : Bool :=
  (List.finRange 8).all fun m =>
    match s.dispositionOf m, decide (m ∈ modifiers) with
    | .required, false => false
    | .forbidden, true => false
    | _, _ => true

/-- The elements of a disposition class in `EnumSet` iteration order
(ascending bit position), as iterated by the `for new_mod in allowed_set`
loop of `ModSpec::mod_sets`. -/
def dispositionList (s : ModSpec) (d : ModDisposition) : List Modifier :=
  (List.finRange 8).filter (fun m => decide (s.dispositionOf m = d))

/-- The inner-loop body of `ModSpec::mod_sets`: extend every already
collected combination with one new allowed modifier, keeping the old
combinations as well. -/
def modSetsStep (result : List ModifierSet) (new_mod : Modifier) : List ModifierSet :=
  result ++ result.map (fun old_set => old_set ∪ {new_mod})

/-- `ModSpec::mod_sets` (src/config.rs lines 166-179): start from the
required set and, for every allowed modifier (in `EnumSet` iteration
order, i.e. ascending bit order), double the list by unioning the new
modifier into every combination collected so far. -/
def mod_sets (s : ModSpec) : List ModifierSet :=
  (s.dispositionList .allowed).foldl modSetsStep [s.requiredSet]

/-- `Default for ModSpec`: every disposition is `Allowed`. -/
def defaultSpec : ModSpec :=
  ⟨.allowed, .allowed, .allowed, .allowed, .allowed, .allowed, .allowed, .allowed⟩

end ModSpec

/-! #### Facts about `matches` (claim C4) -/

lemma ModSpec.mem_requiredSet (s : ModSpec) (m : Modifier) :
    m ∈ s.requiredSet ↔ s.dispositionOf m = .required := by
  simp [requiredSet, withDisposition]

lemma ModSpec.mem_allowedSet (s : ModSpec) (m : Modifier) :
    m ∈ s.allowedSet ↔ s.dispositionOf m = .allowed := by
  simp [allowedSet, withDisposition]

lemma ModSpec.mem_forbiddenSet (s : ModSpec) (m : Modifier) :
    m ∈ s.forbiddenSet ↔ s.dispositionOf m = .forbidden := by
  simp [forbiddenSet, withDisposition]

/-- C4: for every `ModSpec` and every set of active modifiers,
`matches(active)` returns true if and only if the required set is a
subset of `active` and the intersection of the forbidden set with
`active` is empty; `Allowed` modifiers impose no constraint. -/
theorem matches_iff_required_subset_and_forbidden_disjoint
    (s : ModSpec) (active : ModifierSet) :
    s.matchesActive active = true ↔
      s.requiredSet ⊆ active ∧ s.forbiddenSet ∩ active = ∅ := by
  unfold ModSpec.matchesActive
  rw [List.all_eq_true]
  constructor
  · intro h
    constructor
    · intro m hm
      rw [ModSpec.mem_requiredSet] at hm
      have := h m (List.mem_finRange m)
      by_contra hmem
      rw [hm] at this
      simp [hmem] at this
    · rw [Finset.eq_empty_iff_forall_not_mem]
      intro m hm
      rw [Finset.mem_inter] at hm
      obtain ⟨hf, ha⟩ := hm
      rw [ModSpec.mem_forbiddenSet] at hf
      have := h m (List.mem_finRange m)
      rw [hf] at this
      simp [ha] at this
  · rintro ⟨hreq, hforb⟩ m _
    rcases hd : s.dispositionOf m with _ | _ | _
    · have : m ∉ active := by
        intro ha
        have : m ∈ s.forbiddenSet ∩ active :=
          Finset.mem_inter.mpr ⟨(ModSpec.mem_forbiddenSet s m).mpr hd, ha⟩
        rw [hforb] at this
        exact absurd this (Finset.not_mem_empty m)
      simp [this]
    · simp
    · have : m ∈ active := hreq ((ModSpec.mem_requiredSet s m).mpr hd)
      simp [this]

/-! #### Facts about `mod_sets` (claim C2) -/

lemma ModSpec.mem_dispositionList (s : ModSpec) (d : ModDisposition) (m : Modifier) :
    m ∈ s.dispositionList d ↔ s.dispositionOf m = d := by
  simp [dispositionList]

lemma ModSpec.dispositionList_nodup (s : ModSpec) (d : ModDisposition) :
    (s.dispositionList d).Nodup :=
  (List.nodup_finRange 8).filter _

lemma ModSpec.dispositionList_length (s : ModSpec) (d : ModDisposition) :
    (s.dispositionList d).length = (s.withDisposition d).card := by
  rw [← List.toFinset_card_of_nodup (s.dispositionList_nodup d)]
  congr 1
  ext m
  simp [ModSpec.mem_dispositionList, withDisposition]

lemma foldl_modSetsStep_length (L : List Modifier) (acc : List ModifierSet) :
    (L.foldl ModSpec.modSetsStep acc).length = acc.length * 2 ^ L.length := by
  induction L generalizing acc with
  | nil => simp
  | cons m L ih =>
      rw [List.foldl_cons, ih]
      simp only [ModSpec.modSetsStep, List.length_append, List.length_map,
        List.length_cons, pow_succ]
      ring

lemma foldl_modSetsStep_shape (L : List Modifier) (acc : List ModifierSet) :
    ∀ t ∈ L.foldl ModSpec.modSetsStep acc,
      ∃ a ∈ acc, ∃ u : ModifierSet, u ⊆ L.toFinset ∧ t = a ∪ u := by
  induction L generalizing acc with
  | nil =>
      intro t ht
      exact ⟨t, ht, ∅, by simp, by simp⟩
  | cons m L ih =>
      intro t ht
      rw [List.foldl_cons] at ht
      obtain ⟨a, ha, u, hu, rfl⟩ := ih _ t ht
      rw [ModSpec.modSetsStep, List.mem_append] at ha
      rcases ha with ha | ha
      · refine ⟨a, ha, u, ?_, rfl⟩
        rw [List.toFinset_cons]
        exact hu.trans (Finset.subset_insert m _)
      · rw [List.mem_map] at ha
        obtain ⟨b, hb, rfl⟩ := ha
        refine ⟨b, hb, insert m u, ?_, ?_⟩
        · rw [List.toFinset_cons]
          exact Finset.insert_subset_insert m hu
        · rw [Finset.insert_eq, ← Finset.union_assoc]

lemma union_singleton_inj {x y : ModifierSet} {m : Modifier}
    (hx : m ∉ x) (hy : m ∉ y) (h : x ∪ {m} = y ∪ {m}) : x = y := by
  ext a
  by_cases ham : a = m
  · subst ham; simp [hx, hy]
  · have := Finset.ext_iff.mp h a
    simpa [Finset.mem_union, Finset.mem_singleton, ham] using this

lemma foldl_modSetsStep_nodup (L : List Modifier) (acc : List ModifierSet)
    (hacc : acc.Nodup) (hL : L.Nodup)
    (havoid : ∀ a ∈ acc, ∀ m ∈ L, m ∉ a) :
    (L.foldl ModSpec.modSetsStep acc).Nodup := by
  induction L generalizing acc with
  | nil => exact hacc
  | cons m L ih =>
      rw [List.foldl_cons]
      have hmL : m ∉ L := (List.nodup_cons.mp hL).1
      have hLnd : L.Nodup := (List.nodup_cons.mp hL).2
      refine ih _ ?_ hLnd ?_
      · rw [ModSpec.modSetsStep, List.nodup_append]
        refine ⟨hacc, ?_, ?_⟩
        · apply List.Nodup.map_on ?_ hacc
          intro x hx y hy hxy
          exact union_singleton_inj (havoid x hx m (List.mem_cons_self m L))
            (havoid y hy m (List.mem_cons_self m L)) hxy
        · intro a ha hamap
          rw [List.mem_map] at hamap
          obtain ⟨b, _, rfl⟩ := hamap
          exact havoid (b ∪ {m}) ha m (List.mem_cons_self m L) (by simp)
      · intro a ha m' hm'
        rw [ModSpec.modSetsStep, List.mem_append] at ha
        have hm'ne : m' ≠ m := fun h => hmL (h ▸ hm')
        rcases ha with ha | ha
        · exact havoid a ha m' (List.mem_cons_of_mem m hm')
        · rw [List.mem_map] at ha
          obtain ⟨b, hb, rfl⟩ := ha
          rw [Finset.mem_union, Finset.mem_singleton]
          rintro (hin | rfl)
          · exact havoid b hb m' (List.mem_cons_of_mem m hm') hin
          · exact hm'ne rfl

/-- C2: for every `ModSpec`, `mod_sets()` returns exactly `2^|allowed|`
modifier combinations with no duplicates, and every returned combination
is the required set unioned with some subset of the allowed set (hence a
superset of the required set and disjoint from the forbidden set). -/
theorem mod_sets_complete_and_distinct (s : ModSpec) :
    s.mod_sets.length = 2 ^ s.allowedSet.card ∧
    s.mod_sets.Nodup ∧
    ∀ t ∈ s.mod_sets,
      s.requiredSet ⊆ t ∧ t ∩ s.forbiddenSet = ∅ ∧
      ∃ u ⊆ s.allowedSet, t = s.requiredSet ∪ u := by
  have hlistfin : (s.dispositionList .allowed).toFinset = s.allowedSet := by
    ext m
    simp [ModSpec.mem_dispositionList, ModSpec.mem_allowedSet]
  refine ⟨?_, ?_, ?_⟩
  · rw [ModSpec.mod_sets, foldl_modSetsStep_length, ModSpec.dispositionList_length]
    simp [ModSpec.allowedSet]
  · apply foldl_modSetsStep_nodup _ _ (List.nodup_singleton _)
      (s.dispositionList_nodup .allowed)
    intro a ha m hm
    rw [List.mem_singleton] at ha
    subst ha
    rw [ModSpec.mem_dispositionList] at hm
    rw [ModSpec.mem_requiredSet, hm]
    simp
  · intro t ht
    obtain ⟨a, ha, u, hu, rfl⟩ := foldl_modSetsStep_shape _ _ t ht
    rw [List.mem_singleton] at ha
    subst ha
    rw [hlistfin] at hu
    refine ⟨Finset.subset_union_left, ?_, u, hu, rfl⟩
    rw [Finset.eq_empty_iff_forall_not_mem]
    intro m hm
    rw [Finset.mem_inter, Finset.mem_union] at hm
    obtain ⟨hin, hforb⟩ := hm
    rw [ModSpec.mem_forbiddenSet] at hforb
    rcases hin with hin | hin
    · rw [ModSpec.mem_requiredSet, hforb] at hin
      exact absurd hin (by simp)
    · have := hu hin
      rw [ModSpec.mem_allowedSet, hforb] at this
      exact absurd this (by simp)

/-- Witness for C2 at a concrete input: every member of `mod_sets` of the
spec requiring Shift and allowing only CapsLock decomposes as required
plus an allowed subset. -/
theorem mod_sets_complete_witness :
    (ModSpec.mk .required .allowed .forbidden .forbidden .forbidden .forbidden .forbidden .forbidden).requiredSet
        ⊆ ({0, 1} : ModifierSet) ∧
      ({0, 1} : ModifierSet) ∩
        (ModSpec.mk .required .allowed .forbidden .forbidden .forbidden .forbidden .forbidden .forbidden).forbiddenSet = ∅ ∧
      ∃ u ⊆ (ModSpec.mk .required .allowed .forbidden .forbidden .forbidden .forbidden .forbidden .forbidden).allowedSet,
        ({0, 1} : ModifierSet) =
          (ModSpec.mk .required .allowed .forbidden .forbidden .forbidden .forbidden .forbidden .forbidden).requiredSet ∪ u :=
  (mod_sets_complete_and_distinct
    (ModSpec.mk .required .allowed .forbidden .forbidden .forbidden .forbidden .forbidden .forbidden)).2.2
    ({0, 1} : ModifierSet) (by decide)

/-- Witness for C4 at a concrete input: the spec requiring Shift and
forbidding Ctrl matches the active set {Shift, CapsLock}. -/
theorem matches_iff_witness :
    (ModSpec.mk .required .allowed .forbidden .allowed .allowed .allowed .allowed .allowed).requiredSet
        ⊆ ({0, 1} : ModifierSet) ∧
      (ModSpec.mk .required .allowed .forbidden .allowed .allowed .allowed .allowed .allowed).forbiddenSet
        ∩ ({0, 1} : ModifierSet) = ∅ :=
  (matches_iff_required_subset_and_forbidden_disjoint
    (ModSpec.mk .required .allowed .forbidden .allowed .allowed .allowed .allowed .allowed)
    ({0, 1} : ModifierSet)).mp (by decide)

/-! ### `ModSpec::combine_with` (src/config.rs lines 113-126, claim C10) -/

/-- The per-index match of `ModSpec::combine_with`: equal dispositions
keep their value, `Allowed` yields to the other side, and two distinct
non-`Allowed` dispositions panic (`none`). -/
def combineDisp (d1 d2 : ModDisposition) : Option ModDisposition :=
  if d1 = d2 then some d1
  else if d1 = .allowed then some d2
  else if d2 = .allowed then some d1
  else none

/-- `ModSpec::combine_with`: combine all 8 dispositions index by index
(the source's `for i in 0..NUM_MODS` loop, unrolled); any invalid
combination panics (`none`). -/
def ModSpec.combineWith (a b : ModSpec) : Option ModSpec :=
  Option.bind (combineDisp a.shift b.shift) fun d0 =>
  Option.bind (combineDisp a.capslock b.capslock) fun d1 =>
  Option.bind (combineDisp a.ctrl b.ctrl) fun d2 =>
  Option.bind (combineDisp a.alt b.alt) fun d3 =>
  Option.bind (combineDisp a.numlock b.numlock) fun d4 =>
  Option.bind (combineDisp a.mod3 b.mod3) fun d5 =>
  Option.bind (combineDisp a.super_ b.super_) fun d6 =>
  Option.bind (combineDisp a.mod5 b.mod5) fun d7 =>
  some (ModSpec.mk d0 d1 d2 d3 d4 d5 d6 d7)

lemma combineConsts_allowed_left (d : ModDisposition) :
    combineDisp .allowed d = some d := by
  cases d <;> rfl

lemma combineConsts_allowed_right (d : ModDisposition) :
    combineDisp d .allowed = some d := by
  cases d <;> rfl

/-- C10: `combine_with` acts per modifier: if the two dispositions are
equal the result is that disposition, if either is `Allowed` the result
is the other disposition (so the all-`Allowed` default `ModSpec` is a
two-sided identity), and if the two dispositions are distinct and both
non-`Allowed` the combination panics (modelled as `none`). -/
theorem combine_with_per_modifier :
    (∀ d : ModDisposition, combineDisp d d = some d) ∧
    (∀ d : ModDisposition,
      combineDisp .allowed d = some d ∧ combineDisp d .allowed = some d) ∧
    (∀ d1 d2 : ModDisposition, d1 ≠ d2 → d1 ≠ .allowed → d2 ≠ .allowed →
      combineDisp d1 d2 = none) ∧
    (∀ a : ModSpec,
      a.combineWith ModSpec.defaultSpec = some a ∧
        ModSpec.defaultSpec.combineWith a = some a) ∧
    (∀ a b c : ModSpec, a.combineWith b = some c →
      ∀ m : Modifier,
        combineDisp (a.dispositionOf m) (b.dispositionOf m) =
          some (c.dispositionOf m)) ∧
    (∀ a b : ModSpec, a.combineWith b = none →
      ∃ m : Modifier,
        combineDisp (a.dispositionOf m) (b.dispositionOf m) = none) := by
  refine ⟨?_, ?_, ?_, ?_, ?_, ?_⟩
  · intro d; simp [combineDisp]
  · intro d; exact ⟨combineConsts_allowed_left d, combineConsts_allowed_right d⟩
  · intro d1 d2 h hne1 hne2
    simp [combineDisp, h, hne1, hne2]
  · intro a
    obtain ⟨a0, a1, a2, a3, a4, a5, a6, a7⟩ := a
    constructor <;>
      simp [ModSpec.combineWith, ModSpec.defaultSpec,
        combineConsts_allowed_left, combineConsts_allowed_right]
  · intro a b c h m
    simp only [ModSpec.combineWith, Option.bind_eq_some, Option.pure_def,
      Option.some.injEq] at h
    obtain ⟨d0, h0, d1, h1, d2, h2, d3, h3, d4, h4, d5, h5, d6, h6, d7, h7, hc⟩ := h
    subst hc
    fin_cases m
    · exact h0
    · exact h1
    · exact h2
    · exact h3
    · exact h4
    · exact h5
    · exact h6
    · exact h7
  · intro a b h
    by_contra hno
    push_neg at hno
    obtain ⟨d0, h0⟩ := Option.ne_none_iff_exists'.mp (hno 0)
    obtain ⟨d1, h1⟩ := Option.ne_none_iff_exists'.mp (hno 1)
    obtain ⟨d2, h2⟩ := Option.ne_none_iff_exists'.mp (hno 2)
    obtain ⟨d3, h3⟩ := Option.ne_none_iff_exists'.mp (hno 3)
    obtain ⟨d4, h4⟩ := Option.ne_none_iff_exists'.mp (hno 4)
    obtain ⟨d5, h5⟩ := Option.ne_none_iff_exists'.mp (hno 5)
    obtain ⟨d6, h6⟩ := Option.ne_none_iff_exists'.mp (hno 6)
    obtain ⟨d7, h7⟩ := Option.ne_none_iff_exists'.mp (hno 7)
    have h0' : combineDisp a.shift b.shift = some d0 := h0
    have h1' : combineDisp a.capslock b.capslock = some d1 := h1
    have h2' : combineDisp a.ctrl b.ctrl = some d2 := h2
    have h3' : combineDisp a.alt b.alt = some d3 := h3
    have h4' : combineDisp a.numlock b.numlock = some d4 := h4
    have h5' : combineDisp a.mod3 b.mod3 = some d5 := h5
    have h6' : combineDisp a.super_ b.super_ = some d6 := h6
    have h7' : combineDisp a.mod5 b.mod5 = some d7 := h7
    rw [ModSpec.combineWith] at h
    simp [h0', h1', h2', h3', h4', h5', h6', h7'] at h

/-- Witness for C10 at a concrete input: `Required` and `Forbidden` are
distinct non-`Allowed` dispositions, so combining them panics. -/
theorem combine_with_per_modifier_witness :
    combineDisp .required .forbidden = none :=
  combine_with_per_modifier.2.2.1 .required .forbidden
    (by decide) (by decide) (by decide)

/-! ### Config items and `visit_key_mappings` (src/config.rs lines 208-347)

A `ConfigItem` carries an optional name, an `enabled` flag (defaulting to
true via `default_true` when absent from the rule file), flattened
`Conditions` and `ModSpec` fields, and a body that is either a single
`KeyMapping` or a group of nested items; the struct-plus-`ItemBody`-enum
pair of the source is flattened into one inductive with two
constructors. -/

/-- `KeySpec` (src/config.rs): a literal keycode byte or a symbolic name. -/
inductive KeySpec where
  | code (c : Fin 256)
  | sym (s : String)
deriving DecidableEq

/-- `KeySeq` (src/config.rs): a key, a chord, or a sequence of chords. -/
inductive KeySeq where
  | key (k : KeySpec)
  | chord (c : List KeySpec)
  | chordSeq (s : List (List KeySpec))
deriving DecidableEq

/-- `KeyMapping` (src/config.rs): a trigger and an output sequence. -/
structure KeyMapping where
  input : KeySpec
  output : KeySeq
deriving DecidableEq

/-- `Conditions` (src/config.rs): an optional window-title filter. -/
structure Conditions where
  window_title : Option String
deriving DecidableEq

/-- `Conditions::combine_with`: keep the side that has a title; combining
two present titles is `unimplemented!` (a panic, modelled as `none`). -/
def Conditions.combineWith (a b : Conditions) : Option Conditions :=
  if a.window_title = none then some b
  else if b.window_title = none then some a
  else none

/-- `default_true` (src/config.rs lines 231-233): the serde default for an
absent `enabled` field. -/
def default_true : Bool := true

/-- `VisitKeyMappingsState` (src/config.rs): the inherited mods and
conditions accumulated along the path from the config root. -/
structure VisitKeyMappingsState where
  mods : ModSpec
  conditions : Conditions
deriving DecidableEq

inductive ConfigItem where
  | mapping (name : Option String) (enabled : Bool) (conditions : Conditions)
      (mods : ModSpec) (body : KeyMapping) : ConfigItem
  | group (name : Option String) (enabled : Bool) (conditions : Conditions)
      (mods : ModSpec) (contents : List ConfigItem) : ConfigItem

/-- `ConfigItem::enabled`. -/
def ConfigItem.enabledOf : ConfigItem → Bool
  | .mapping _ e _ _ _ => e
  | .group _ e _ _ _ => e

mutual
/-- `ConfigItem::visit_key_mappings` (src/config.rs lines 248-275),
modelled with a visitor that always continues: the returned list is the
sequence of (mapping, state) pairs the visitor is invoked on.  The
conditions and mods of the item are combined with the inherited state
first (a combination panic is `none`); only then is the `enabled` flag
consulted, and a disabled item contributes no visits at all. -/
def ConfigItem.visit_key_mappings (state : VisitKeyMappingsState) :
    ConfigItem → Option (List (KeyMapping × VisitKeyMappingsState))
  | .mapping _ enabled conds mods km =>
      Option.bind (state.conditions.combineWith conds) fun conditions =>
      Option.bind (state.mods.combineWith mods) fun m =>
      if enabled then some [(km, ⟨m, conditions⟩)] else some []
  | .group _ enabled conds mods contents =>
      Option.bind (state.conditions.combineWith conds) fun conditions =>
      Option.bind (state.mods.combineWith mods) fun m =>
      if enabled then ConfigItem.visitList ⟨m, conditions⟩ contents else some []

/-- The `for item in contents` loop of the `Group` arm. -/
def ConfigItem.visitList (state : VisitKeyMappingsState) :
    List ConfigItem → Option (List (KeyMapping × VisitKeyMappingsState))
  | [] => some []
  | i :: rest =>
      Option.bind (ConfigItem.visit_key_mappings state i) fun a =>
      Option.bind (ConfigItem.visitList state rest) fun b =>
      some (a ++ b)
end

/-- C9: a `ConfigItem` whose `enabled` field is false contributes no
visited `KeyMapping` at all (its whole subtree is skipped), while an
absent `enabled` field defaults to true and an enabled mapping item is
visited normally. -/
theorem disabled_item_contributes_nothing :
    (∀ (st : VisitKeyMappingsState) (i : ConfigItem), i.enabledOf = false →
      i.visit_key_mappings st = some [] ∨ i.visit_key_mappings st = none) ∧
    default_true = true ∧
    (∀ (st : VisitKeyMappingsState) (nm : Option String) (conds : Conditions)
        (mods : ModSpec) (km : KeyMapping) (c : Conditions) (m : ModSpec),
      Conditions.combineWith st.conditions conds = some c →
      ModSpec.combineWith st.mods mods = some m →
      ConfigItem.visit_key_mappings st (.mapping nm default_true conds mods km) =
        some [(km, ⟨m, c⟩)]) := by
  refine ⟨?_, rfl, ?_⟩
  · intro st i he
    cases i with
    | mapping nm e conds mods km =>
        simp only [ConfigItem.enabledOf] at he
        subst he
        cases hc : st.conditions.combineWith conds with
        | none => right; simp [ConfigItem.visit_key_mappings, hc]
        | some c =>
            cases hm : st.mods.combineWith mods with
            | none => right; simp [ConfigItem.visit_key_mappings, hc, hm]
            | some m => left; simp [ConfigItem.visit_key_mappings, hc, hm]
    | group nm e conds mods contents =>
        simp only [ConfigItem.enabledOf] at he
        subst he
        cases hc : st.conditions.combineWith conds with
        | none => right; simp [ConfigItem.visit_key_mappings, hc]
        | some c =>
            cases hm : st.mods.combineWith mods with
            | none => right; simp [ConfigItem.visit_key_mappings, hc, hm]
            | some m => left; simp [ConfigItem.visit_key_mappings, hc, hm]
  · intro st nm conds mods km c m hc hm
    simp [ConfigItem.visit_key_mappings, hc, hm, default_true]

/-- Witness for C9 at a concrete input: a disabled group under the
default traversal state contributes nothing. -/
theorem disabled_item_witness :
    ConfigItem.visit_key_mappings ⟨ModSpec.defaultSpec, ⟨none⟩⟩
        (.group none false ⟨none⟩ ModSpec.defaultSpec []) = some [] ∨
      ConfigItem.visit_key_mappings ⟨ModSpec.defaultSpec, ⟨none⟩⟩
        (.group none false ⟨none⟩ ModSpec.defaultSpec []) = none :=
  disabled_item_contributes_nothing.1 ⟨ModSpec.defaultSpec, ⟨none⟩⟩
    (.group none false ⟨none⟩ ModSpec.defaultSpec []) (by decide)

/-! ### KeyGrabber (src/key_grabber.rs)

The grab state machine.  `active_grabs` is the source's
`HashMap<(WindowRef, Keycode), HashSet<EnumSet<Modifier>>>`, embedded as
a duplicate-free association list of (window, keycode, state) triples in
insertion order (a deterministic stand-in for hash iteration order; an
empty per-key set and an absent entry are observably identical).
`trace` records every grab/ungrab primitive issued to the display, so
theorems can count underlying server calls. -/

abbrev WindowRef := ℕ

/-- One call to the display's grab/ungrab primitive
(src/display.rs `Display::grab_key` / `Display::ungrab_key`). -/
inductive ServerCall where
  | grabKey (window : WindowRef) (keycode : Keycode) (state : ModifierSet)
  | ungrabKey (window : WindowRef) (keycode : Keycode) (state : ModifierSet)
deriving DecidableEq

/-- `Grab` (src/key_grabber.rs lines 18-24). -/
structure Grab where
  window : WindowRef
  keycode : Keycode
  state : ModifierSet
  is_grabbed : Bool
deriving DecidableEq

/-- The (window, keycode, state) key of a `Grab` in the active table. -/
def Grab.triple (g : Grab) : WindowRef × Keycode × ModifierSet :=
  (g.window, g.keycode, g.state)

/-- `KeyGrabber` (src/key_grabber.rs lines 11-16) plus the trace of
issued server calls standing in for the wrapped `Display`. -/
structure KeyGrabber where
  current_grabs : List Grab
  undo_stack : List (List Grab)
  active_grabs : List (WindowRef × Keycode × ModifierSet)
  trace : List ServerCall
deriving DecidableEq

/-- `KeyGrabber::new`. -/
def KeyGrabber.new : KeyGrabber := ⟨[], [], [], []⟩

/-- `KeyGrabber::apply_grab` (src/key_grabber.rs lines 93-140): for a
grab, insert the triple and issue the server grab only when absent; for
an ungrab, remove the triple and issue the server ungrab only when
present; record the action in `current_grabs` when something changed and
this is not an undo replay. -/
def KeyGrabber.applyGrab (s : KeyGrabber) (grab : Grab) (undo : Bool) : KeyGrabber :=
  let t := grab.triple
  if grab.is_grabbed then
    if t ∈ s.active_grabs then s
    else
      let s' : KeyGrabber :=
        { s with
          active_grabs := s.active_grabs ++ [t]
          trace := s.trace ++ [.grabKey grab.window grab.keycode grab.state] }
      if undo then s' else { s' with current_grabs := s'.current_grabs ++ [grab] }
  else
    if t ∈ s.active_grabs then
      let s' : KeyGrabber :=
        { s with
          active_grabs := s.active_grabs.erase t
          trace := s.trace ++ [.ungrabKey grab.window grab.keycode grab.state] }
      if undo then s' else { s' with current_grabs := s'.current_grabs ++ [grab] }
    else s

/-- `KeyGrabber::grab_key` (src/key_grabber.rs lines 52-60). -/
def KeyGrabber.grab_key (s : KeyGrabber) (window : WindowRef) (keycode : Keycode)
    (state : ModifierSet) : KeyGrabber :=
  s.applyGrab ⟨window, keycode, state, true⟩ false

/-- `KeyGrabber::ungrab_key` (src/key_grabber.rs lines 62-75): snapshot
the active combinations for (window, keycode) and apply an ungrab for
each of them. -/
def KeyGrabber.ungrab_key (s : KeyGrabber) (window : WindowRef) (keycode : Keycode) :
    KeyGrabber :=
  let grabs := (s.active_grabs.filter
    (fun t => decide (t.1 = window ∧ t.2.1 = keycode))).map (fun t => t.2.2)
  grabs.foldl (fun s' st => s'.applyGrab ⟨window, keycode, st, false⟩ false) s

/-- `KeyGrabber::push_state` (src/key_grabber.rs lines 77-81): move the
accumulated `current_grabs` onto the undo stack and reset it. -/
def KeyGrabber.push_state (s : KeyGrabber) : KeyGrabber :=
  { s with
    undo_stack := s.current_grabs :: s.undo_stack
    current_grabs := [] }

/-- `KeyGrabber::pop_state` (src/key_grabber.rs lines 83-91): pop the
most recent frame (`expect`, i.e. a panic — `none` — on an empty stack),
replay its actions in reverse as undos, and reinstate it as
`current_grabs`. -/
def KeyGrabber.pop_state (s : KeyGrabber) : Option KeyGrabber :=
  match s.undo_stack with
  | [] => none
  | grabs :: rest =>
      let s1 := grabs.reverse.foldl (fun s' g => s'.applyGrab g true)
        { s with undo_stack := rest }
      some { s1 with current_grabs := grabs }

/-! #### Empty-stack pop is fatal (claim C8) -/

/-- C8: calling `pop_state()` with no unmatched `push_state()` before it
(an empty undo stack) is a fatal error — the `expect` panics, modelled
as `none`; with a non-empty stack `pop_state` always returns a state. -/
theorem pop_state_empty_stack_fatal (s : KeyGrabber) :
    s.pop_state = none ↔ s.undo_stack = [] := by
  cases h : s.undo_stack with
  | nil => simp [KeyGrabber.pop_state, h]
  | cons a rest => simp [KeyGrabber.pop_state, h]

/-- Witness for C8 at a concrete input: a fresh grabber has an empty
stack, and popping it panics. -/
theorem pop_state_empty_stack_witness :
    KeyGrabber.new.pop_state = none :=
  (pop_state_empty_stack_fatal KeyGrabber.new).mpr rfl

/-- A concrete nonzero keycode for witnesses and counterexamples. -/
def kc1 : Keycode := ⟨1, by decide⟩

/-! #### Equation lemmas for `apply_grab` -/

lemma applyGrab_grab_of_mem (s : KeyGrabber) (g : Grab) (u : Bool)
    (hg : g.is_grabbed = true) (hmem : g.triple ∈ s.active_grabs) :
    s.applyGrab g u = s := by
  unfold KeyGrabber.applyGrab
  rw [hg]
  simp [hmem]

lemma applyGrab_grab_of_not_mem (s : KeyGrabber) (g : Grab) (u : Bool)
    (hg : g.is_grabbed = true) (hmem : g.triple ∉ s.active_grabs) :
    s.applyGrab g u =
      { s with
        active_grabs := s.active_grabs ++ [g.triple]
        trace := s.trace ++ [.grabKey g.window g.keycode g.state]
        current_grabs :=
          if u then s.current_grabs else s.current_grabs ++ [g] } := by
  unfold KeyGrabber.applyGrab
  rw [hg]
  simp only [hmem, if_true, if_neg, if_pos]
  cases u <;> simp

lemma applyGrab_ungrab_of_mem (s : KeyGrabber) (g : Grab) (u : Bool)
    (hg : g.is_grabbed = false) (hmem : g.triple ∈ s.active_grabs) :
    s.applyGrab g u =
      { s with
        active_grabs := s.active_grabs.erase g.triple
        trace := s.trace ++ [.ungrabKey g.window g.keycode g.state]
        current_grabs :=
          if u then s.current_grabs else s.current_grabs ++ [g] } := by
  unfold KeyGrabber.applyGrab
  rw [hg]
  simp only [Bool.false_eq_true, if_false, hmem, if_pos]
  cases u <;> simp

lemma applyGrab_ungrab_of_not_mem (s : KeyGrabber) (g : Grab) (u : Bool)
    (hg : g.is_grabbed = false) (hmem : g.triple ∉ s.active_grabs) :
    s.applyGrab g u = s := by
  unfold KeyGrabber.applyGrab
  rw [hg]
  simp [hmem]

lemma grab_key_of_mem (s : KeyGrabber) (w : WindowRef) (k : Keycode)
    (m : ModifierSet) (hmem : (w, k, m) ∈ s.active_grabs) :
    s.grab_key w k m = s :=
  applyGrab_grab_of_mem s ⟨w, k, m, true⟩ false rfl hmem

lemma grab_key_of_not_mem (s : KeyGrabber) (w : WindowRef) (k : Keycode)
    (m : ModifierSet) (hmem : (w, k, m) ∉ s.active_grabs) :
    s.grab_key w k m =
      { s with
        active_grabs := s.active_grabs ++ [(w, k, m)]
        trace := s.trace ++ [.grabKey w k m]
        current_grabs := s.current_grabs ++ [⟨w, k, m, true⟩] } := by
  rw [KeyGrabber.grab_key, applyGrab_grab_of_not_mem s ⟨w, k, m, true⟩ false rfl hmem]
  rfl

lemma ungrab_key_of_none (s : KeyGrabber) (w : WindowRef) (k : Keycode)
    (hnone : ∀ t ∈ s.active_grabs, ¬(t.1 = w ∧ t.2.1 = k)) :
    s.ungrab_key w k = s := by
  have hfil : s.active_grabs.filter (fun t => decide (t.1 = w ∧ t.2.1 = k)) = [] := by
    rw [List.filter_eq_nil_iff]
    intro t ht
    simpa using hnone t ht
  unfold KeyGrabber.ungrab_key
  rw [hfil]
  rfl

/-! #### Grab idempotence (claim C5) -/

/-- C5: issuing the same grab twice results in exactly one underlying
server grab call, and the active table holds the combination exactly
once (it is present, and the table stays duplicate-free); re-issuing an
already-active grab is a complete no-op, and an ungrab for a key with no
active combinations issues nothing. -/
theorem grab_key_idempotent (s : KeyGrabber) (w : WindowRef) (k : Keycode)
    (m : ModifierSet) :
    ((s.grab_key w k m).grab_key w k m = s.grab_key w k m) ∧
    ((w, k, m) ∈ (s.grab_key w k m).active_grabs) ∧
    ((w, k, m) ∉ s.active_grabs →
      (s.grab_key w k m).trace = s.trace ++ [ServerCall.grabKey w k m]) ∧
    ((w, k, m) ∈ s.active_grabs → s.grab_key w k m = s) ∧
    (s.active_grabs.Nodup → (s.grab_key w k m).active_grabs.Nodup) ∧
    ((∀ t ∈ s.active_grabs, ¬(t.1 = w ∧ t.2.1 = k)) → s.ungrab_key w k = s) := by
  by_cases hmem : (w, k, m) ∈ s.active_grabs
  · have hid : s.grab_key w k m = s := grab_key_of_mem s w k m hmem
    exact ⟨by simp only [hid], by simp only [hid]; exact hmem,
      fun h => absurd hmem h, fun _ => hid,
      fun hnd => by simp only [hid]; exact hnd,
      ungrab_key_of_none s w k⟩
  · have hone := grab_key_of_not_mem s w k m hmem
    have hmem2 : (w, k, m) ∈ (s.grab_key w k m).active_grabs := by
      rw [hone]; simp
    refine ⟨grab_key_of_mem _ w k m hmem2, hmem2, fun _ => by rw [hone],
      fun h => absurd h hmem, ?_, ungrab_key_of_none s w k⟩
    intro hnd
    rw [hone]
    simp only [List.nodup_append]
    exact ⟨hnd, List.nodup_singleton _, by simpa using hmem⟩

/-- Witness for C5 at a concrete input: grabbing (window 0, keycode 1,
no modifiers) on a fresh grabber issues one server call. -/
theorem grab_key_idempotent_witness :
    (KeyGrabber.new.grab_key 0 kc1 ∅).trace =
      KeyGrabber.new.trace ++ [ServerCall.grabKey 0 kc1 ∅] :=
  (grab_key_idempotent KeyGrabber.new 0 kc1 ∅).2.2.1 (by decide)

/-! #### Push/pop round trip (claim C1)

`pop_state` replays the popped frame's recorded actions; it re-applies
them idempotently but does nothing about actions recorded *after* the
push, so a `grab_key` of a fresh combination between push and pop
survives the pop (see the counterexample).  The round trip does restore
the table when the pushed frame records every active grab and only
`ungrab_key` calls happen in between. -/

/-- A sequence of `grab_key` calls. -/
def KeyGrabber.grabMany (s : KeyGrabber)
    (l : List (WindowRef × Keycode × ModifierSet)) : KeyGrabber :=
  l.foldl (fun s' t => s'.grab_key t.1 t.2.1 t.2.2) s

/-- A sequence of `ungrab_key` calls. -/
def KeyGrabber.ungrabMany (s : KeyGrabber)
    (l : List (WindowRef × Keycode)) : KeyGrabber :=
  l.foldl (fun s' p => s'.ungrab_key p.1 p.2) s

lemma applyGrab_undo_stack (s : KeyGrabber) (g : Grab) (u : Bool) :
    (s.applyGrab g u).undo_stack = s.undo_stack := by
  cases hg : g.is_grabbed <;> by_cases hmem : g.triple ∈ s.active_grabs
  · rw [applyGrab_ungrab_of_mem s g u hg hmem]
  · rw [applyGrab_ungrab_of_not_mem s g u hg hmem]
  · rw [applyGrab_grab_of_mem s g u hg hmem]
  · rw [applyGrab_grab_of_not_mem s g u hg hmem]

lemma ungrab_key_undo_stack (s : KeyGrabber) (w : WindowRef) (k : Keycode) :
    (s.ungrab_key w k).undo_stack = s.undo_stack := by
  unfold KeyGrabber.ungrab_key
  dsimp only
  generalize (s.active_grabs.filter _).map _ = l
  induction l generalizing s with
  | nil => rfl
  | cons a l ih => rw [List.foldl_cons, ih, applyGrab_undo_stack]

lemma ungrabMany_undo_stack (l : List (WindowRef × Keycode)) (s : KeyGrabber) :
    (s.ungrabMany l).undo_stack = s.undo_stack := by
  induction l generalizing s with
  | nil => rfl
  | cons p l ih => rw [KeyGrabber.ungrabMany, List.foldl_cons, ← KeyGrabber.ungrabMany,
      ih, ungrab_key_undo_stack]

lemma applyGrab_ungrab_active_subset (s : KeyGrabber) (g : Grab) (u : Bool)
    (hg : g.is_grabbed = false) :
    (s.applyGrab g u).active_grabs ⊆ s.active_grabs := by
  by_cases hmem : g.triple ∈ s.active_grabs
  · rw [applyGrab_ungrab_of_mem s g u hg hmem]
    exact List.erase_subset _ _
  · rw [applyGrab_ungrab_of_not_mem s g u hg hmem]
    exact fun x hx => hx

lemma foldl_ungrab_active_subset (l : List ModifierSet) (s : KeyGrabber)
    (w : WindowRef) (k : Keycode) :
    (l.foldl (fun s' st =>
      s'.applyGrab ⟨w, k, st, false⟩ false) s).active_grabs ⊆ s.active_grabs := by
  induction l generalizing s with
  | nil => exact fun x hx => hx
  | cons a l ih =>
      rw [List.foldl_cons]
      exact fun x hx =>
        applyGrab_ungrab_active_subset s ⟨w, k, a, false⟩ false rfl (ih _ hx)

lemma ungrab_key_active_subset (s : KeyGrabber) (w : WindowRef) (k : Keycode) :
    (s.ungrab_key w k).active_grabs ⊆ s.active_grabs :=
  foldl_ungrab_active_subset _ s w k

lemma ungrabMany_active_subset (l : List (WindowRef × Keycode)) (s : KeyGrabber) :
    (s.ungrabMany l).active_grabs ⊆ s.active_grabs := by
  induction l generalizing s with
  | nil => exact fun x hx => hx
  | cons p l ih =>
      rw [KeyGrabber.ungrabMany, List.foldl_cons, ← KeyGrabber.ungrabMany]
      exact fun x hx => ungrab_key_active_subset s p.1 p.2 (ih _ hx)

/-- The state invariant established by `grab_key`-only histories: the
active table is exactly the recorded grabs, and all records are grabs. -/
def GrabOnlyInv (s : KeyGrabber) : Prop :=
  s.active_grabs = s.current_grabs.map Grab.triple ∧
    (∀ g ∈ s.current_grabs, g.is_grabbed = true) ∧
    s.undo_stack = []

lemma grabOnlyInv_new : GrabOnlyInv KeyGrabber.new :=
  ⟨rfl, fun _ h => absurd h (List.not_mem_nil _), rfl⟩

lemma grabOnlyInv_grab_key (s : KeyGrabber) (h : GrabOnlyInv s)
    (w : WindowRef) (k : Keycode) (m : ModifierSet) :
    GrabOnlyInv (s.grab_key w k m) := by
  obtain ⟨hact, hall, hstk⟩ := h
  by_cases hmem : (w, k, m) ∈ s.active_grabs
  · rw [grab_key_of_mem s w k m hmem]
    exact ⟨hact, hall, hstk⟩
  · rw [grab_key_of_not_mem s w k m hmem]
    refine ⟨?_, ?_, hstk⟩
    · simp [hact, Grab.triple]
    · intro g hg
      rw [List.mem_append] at hg
      rcases hg with hg | hg
      · exact hall g hg
      · rw [List.mem_singleton] at hg
        subst hg
        rfl

lemma grabOnlyInv_grabMany (l : List (WindowRef × Keycode × ModifierSet))
    (s : KeyGrabber) (h : GrabOnlyInv s) : GrabOnlyInv (s.grabMany l) := by
  induction l generalizing s with
  | nil => exact h
  | cons t l ih =>
      rw [KeyGrabber.grabMany, List.foldl_cons, ← KeyGrabber.grabMany]
      exact ih _ (grabOnlyInv_grab_key s h t.1 t.2.1 t.2.2)

lemma applyGrab_replay_active_toFinset (x : KeyGrabber) (g : Grab)
    (hg : g.is_grabbed = true) :
    (x.applyGrab g true).active_grabs.toFinset =
      insert g.triple x.active_grabs.toFinset := by
  by_cases hmem : g.triple ∈ x.active_grabs
  · rw [applyGrab_grab_of_mem x g true hg hmem]
    exact (Finset.insert_eq_self.mpr (List.mem_toFinset.mpr hmem)).symm
  · rw [applyGrab_grab_of_not_mem x g true hg hmem]
    dsimp only
    rw [List.toFinset_append]
    simp only [List.toFinset_cons, List.toFinset_nil, insert_emptyc_eq]
    rw [Finset.union_comm, ← Finset.insert_eq]

lemma replay_active_toFinset (C : List Grab) (x : KeyGrabber)
    (hC : ∀ g ∈ C, g.is_grabbed = true) :
    (C.foldl (fun s' g => s'.applyGrab g true) x).active_grabs.toFinset =
      x.active_grabs.toFinset ∪ (C.map Grab.triple).toFinset := by
  induction C generalizing x with
  | nil => simp
  | cons g C ih =>
      rw [List.foldl_cons, ih _ (fun g' hg' => hC g' (List.mem_cons_of_mem g hg')),
        applyGrab_replay_active_toFinset x g (hC g (List.mem_cons_self g C))]
      rw [List.map_cons, List.toFinset_cons, Finset.insert_union, Finset.union_insert]

lemma pop_state_cons (s : KeyGrabber) (C : List Grab) (rest : List (List Grab))
    (h : s.undo_stack = C :: rest) :
    s.pop_state = some
      { (C.reverse.foldl (fun s' g => s'.applyGrab g true)
          { s with undo_stack := rest }) with current_grabs := C } := by
  unfold KeyGrabber.pop_state
  rw [h]

/-- C1 (amended): starting from a fresh grabber, after any sequence of
`grab_key` calls, a `push_state()`, any sequence of `ungrab_key` calls,
and the matching `pop_state()`, the active-grab table is restored to its
pre-push contents.  (The unrestricted claim is false: see the
counterexample, where a `grab_key` between push and pop survives.) -/
theorem push_pop_round_trip (gl : List (WindowRef × Keycode × ModifierSet))
    (ul : List (WindowRef × Keycode)) :
    ∃ s4, ((KeyGrabber.new.grabMany gl).push_state.ungrabMany ul).pop_state = some s4 ∧
      s4.active_grabs.toFinset = (KeyGrabber.new.grabMany gl).active_grabs.toFinset := by
  obtain ⟨hact, hall, hstk⟩ := grabOnlyInv_grabMany gl KeyGrabber.new grabOnlyInv_new
  set s1 := KeyGrabber.new.grabMany gl with hs1
  set C := s1.current_grabs with hC
  set s3 := s1.push_state.ungrabMany ul with hs3
  have hstk3 : s3.undo_stack = [C] := by
    rw [hs3, ungrabMany_undo_stack, KeyGrabber.push_state, hstk]
  have hsub : s3.active_grabs ⊆ s1.active_grabs := by
    rw [hs3]
    exact ungrabMany_active_subset ul s1.push_state
  refine ⟨_, pop_state_cons s3 C [] hstk3, ?_⟩
  dsimp only
  rw [replay_active_toFinset]
  · have hrev : (C.reverse.map Grab.triple).toFinset = s1.active_grabs.toFinset := by
      rw [List.map_reverse, List.toFinset_reverse, hact]
    rw [hrev]
    apply Finset.Subset.antisymm
    · apply Finset.union_subset
      · intro x hx
        rw [List.mem_toFinset] at hx
        exact List.mem_toFinset.mpr (hsub hx)
      · exact Finset.Subset.refl _
    · exact Finset.subset_union_right
  · intro g hg
    exact hall g (List.mem_reverse.mp hg)

/-- Witness for C1 (amended) at concrete inputs: grab, push, ungrab,
pop restores the single-entry table. -/
theorem push_pop_round_trip_witness :
    ∃ s4, ((KeyGrabber.new.grabMany [(0, kc1, ∅)]).push_state.ungrabMany
        [(0, kc1)]).pop_state = some s4 ∧
      s4.active_grabs.toFinset =
        (KeyGrabber.new.grabMany [(0, kc1, ∅)]).active_grabs.toFinset :=
  push_pop_round_trip [(0, kc1, ∅)] [(0, kc1)]

/-- C1 counterexample: a `grab_key` issued between `push_state()` and
`pop_state()` survives the pop, so the table after the pop is not
bit-for-bit equal to its value right before the push (which was empty). -/
theorem push_pop_round_trip_cex :
    (KeyGrabber.new.push_state.grab_key 0 kc1 ∅).pop_state.map
        (fun s4 => decide (s4.active_grabs.toFinset =
          KeyGrabber.new.active_grabs.toFinset)) = some false := by
  decide

/-! ### Event capture decoding (src/display.rs, claim C6)

A recorded wire event is a fixed-layout structure whose engine-relevant
fields are the event-type byte (`code`), the detail byte (keycode or
button number) and the 16-bit modifier-state field; the remaining
sequence/time/coordinate fields are irrelevant to decoding and omitted.
The X11 core event-type codes are KeyPress = 2, KeyRelease = 3,
ButtonPress = 4, ButtonRelease = 5. -/

/-- `UpOrDown` (src/display.rs). -/
inductive UpOrDown where
  | up
  | down
deriving DecidableEq, Repr

/-- `Button` (src/display.rs): a keyboard key or a mouse button number. -/
inductive Button where
  | key (k : Keycode)
  | mouseButton (b : Fin 256)
deriving DecidableEq

/-- `InputEvent` (src/display.rs). -/
structure InputEvent where
  direction : UpOrDown
  button : Button
deriving DecidableEq

/-- `RecordedEvent` (src/display.rs): a decoded event tagged with the
modifier snapshot from the record's state field. -/
structure RecordedEvent where
  state : ModifierSet
  input : InputEvent
deriving DecidableEq

/-- `RecordedEventData` (src/display.rs lines 93-110), restricted to the
fields decoding reads. -/
structure RecordedEventData where
  code : Fin 256
  detail : Fin 256
  state : Fin 65536
deriving DecidableEq

/-- `MIN_RECORDED_EVENT` = `KeyPress` = 2. -/
def MIN_RECORDED_EVENT : ℕ := 2

/-- `MAX_RECORDED_EVENT` = `ButtonRelease` = 5. -/
def MAX_RECORDED_EVENT : ℕ := 5

/-- `EnumSet::<Modifier>::from_u16_truncated`: keep exactly the bits that
correspond to the 8 modifier variants, i.e. the low 8 bits. -/
def fromU16Truncated (n : Fin 65536) : ModifierSet :=
  Finset.univ.filter (fun i => n.val.testBit i.val)

/-- `TryFrom<&RecordedEventData> for RecordedEvent` (src/display.rs lines
137-167): codes 2/4 are presses, 3/5 are releases, anything else is an
unknown event; key events additionally require a nonzero detail byte to
form a `Keycode`, mouse-button events accept any detail byte. -/
def RecordedEvent.tryFrom (data : RecordedEventData) : Option RecordedEvent :=
  let state := fromU16Truncated data.state
  let code := data.code.val
  Option.bind
    (if code = 2 ∨ code = 4 then some UpOrDown.down
     else if code = 3 ∨ code = 5 then some UpOrDown.up
     else none) fun direction =>
  Option.bind
    (if code = 2 ∨ code = 3 then (Keycode.tryFrom data.detail).map Button.key
     else if code = 4 ∨ code = 5 then some (Button.mouseButton data.detail)
     else none) fun button =>
  some ⟨state, ⟨direction, button⟩⟩

/-- The raw callback argument (`XRecordInterceptData`) restricted to the
fields `xrecord_callback` reads. -/
structure XRecordInterceptData where
  category : ℕ
  client_swapped : ℕ
  data_len : ℕ
  data : RecordedEventData
deriving DecidableEq

/-- `XRecordFromServer`: the X Record category for server-originated data. -/
def XRecordFromServer : ℕ := 0

/-- `xrecord_callback` (src/display.rs lines 457-470): drop any record
whose category is not from-server, whose byte order is swapped, or whose
length is zero; otherwise decode, invoking the handler on success and
silently ignoring a decode failure.  The returned value is the event the
handler is invoked with, if any. -/
def xrecordCallback (d : XRecordInterceptData) : Option RecordedEvent :=
  if d.category ≠ XRecordFromServer ∨ d.client_swapped ≠ 0 ∨ d.data_len = 0 then none
  else RecordedEvent.tryFrom d.data

/-- C6 (amended): the callback delivers no event exactly when the
category/byte-order/length gate fails, the event-type code lies outside
the press-through-release range 2..5, or the record is a key event whose
detail byte is zero (no valid `Keycode`); otherwise it delivers the
decoded press/release event carrying the modifier set taken from the low
8 bits of the 16-bit state field. -/
theorem xrecord_decode_characterization (d : XRecordInterceptData) :
    (xrecordCallback d = none ↔
      ¬(d.category = XRecordFromServer ∧ d.client_swapped = 0 ∧ d.data_len ≠ 0 ∧
        MIN_RECORDED_EVENT ≤ d.data.code.val ∧ d.data.code.val ≤ MAX_RECORDED_EVENT ∧
        ((d.data.code.val = 2 ∨ d.data.code.val = 3) → d.data.detail ≠ 0))) ∧
    (∀ e, xrecordCallback d = some e →
      e.state = Finset.univ.filter (fun i : Modifier => (d.data.state.val % 256).testBit i.val) ∧
      ((d.data.code.val = 2 → ∃ k : Keycode, k.val = d.data.detail ∧
          e.input = ⟨UpOrDown.down, Button.key k⟩) ∧
       (d.data.code.val = 3 → ∃ k : Keycode, k.val = d.data.detail ∧
          e.input = ⟨UpOrDown.up, Button.key k⟩) ∧
       (d.data.code.val = 4 → e.input = ⟨UpOrDown.down, Button.mouseButton d.data.detail⟩) ∧
       (d.data.code.val = 5 → e.input = ⟨UpOrDown.up, Button.mouseButton d.data.detail⟩))) := by
  have hstate : fromU16Truncated d.data.state =
      Finset.univ.filter (fun i : Modifier => (d.data.state.val % 256).testBit i.val) := by
    unfold fromU16Truncated
    apply Finset.filter_congr
    intro i _
    have h256 : (256 : ℕ) = 2 ^ 8 := by norm_num
    rw [h256, Nat.testBit_mod_two_pow]
    simp [i.isLt]
  by_cases hgate : d.category = XRecordFromServer ∧ d.client_swapped = 0 ∧ d.data_len ≠ 0
  · obtain ⟨h1, h2, h3⟩ := hgate
    have hcb : xrecordCallback d = RecordedEvent.tryFrom d.data := by
      unfold xrecordCallback
      rw [if_neg]
      push_neg
      exact ⟨h1, h2, h3⟩
    rw [hcb]
    by_cases hc2 : d.data.code.val = 2
    · by_cases hdet : d.data.detail = 0
      · have heval : RecordedEvent.tryFrom d.data = none := by
          simp [RecordedEvent.tryFrom, Keycode.tryFrom, hc2, hdet]
        rw [heval]
        refine ⟨⟨fun _ => ?_, fun _ => rfl⟩, fun e he => absurd he (by simp)⟩
        intro hcontra
        exact hcontra.2.2.2.2.2 (Or.inl hc2) hdet
      · have heval : RecordedEvent.tryFrom d.data =
            some ⟨fromU16Truncated d.data.state,
              ⟨UpOrDown.down, Button.key ⟨d.data.detail, hdet⟩⟩⟩ := by
          simp [RecordedEvent.tryFrom, Keycode.tryFrom, hc2, hdet]
        rw [heval]
        constructor
        · simp only [Option.some_ne_none, false_iff, not_not]
          exact ⟨h1, h2, h3, by rw [MIN_RECORDED_EVENT, hc2], by rw [MAX_RECORDED_EVENT, hc2]; norm_num,
            fun _ => hdet⟩
        · intro e he
          obtain rfl := (Option.some.inj he).symm
          refine ⟨hstate, fun _ => ⟨⟨d.data.detail, hdet⟩, rfl, rfl⟩, ?_, ?_, ?_⟩
          · intro hx; rw [hc2] at hx; norm_num at hx
          · intro hx; rw [hc2] at hx; norm_num at hx
          · intro hx; rw [hc2] at hx; norm_num at hx
    · by_cases hc3 : d.data.code.val = 3
      · by_cases hdet : d.data.detail = 0
        · have heval : RecordedEvent.tryFrom d.data = none := by
            simp [RecordedEvent.tryFrom, Keycode.tryFrom, hc2, hc3, hdet]
          rw [heval]
          refine ⟨⟨fun _ => ?_, fun _ => rfl⟩, fun e he => absurd he (by simp)⟩
          intro hcontra
          exact hcontra.2.2.2.2.2 (Or.inr hc3) hdet
        · have heval : RecordedEvent.tryFrom d.data =
              some ⟨fromU16Truncated d.data.state,
                ⟨UpOrDown.up, Button.key ⟨d.data.detail, hdet⟩⟩⟩ := by
            simp [RecordedEvent.tryFrom, Keycode.tryFrom, hc2, hc3, hdet]
          rw [heval]
          constructor
          · simp only [Option.some_ne_none, false_iff, not_not]
            exact ⟨h1, h2, h3, by rw [MIN_RECORDED_EVENT, hc3]; norm_num,
              by rw [MAX_RECORDED_EVENT, hc3]; norm_num, fun _ => hdet⟩
          · intro e he
            obtain rfl := (Option.some.inj he).symm
            refine ⟨hstate, ?_, fun _ => ⟨⟨d.data.detail, hdet⟩, rfl, rfl⟩, ?_, ?_⟩
            · intro hx; rw [hc3] at hx; norm_num at hx
            · intro hx; rw [hc3] at hx; norm_num at hx
            · intro hx; rw [hc3] at hx; norm_num at hx
      · by_cases hc4 : d.data.code.val = 4
        · have heval : RecordedEvent.tryFrom d.data =
              some ⟨fromU16Truncated d.data.state,
                ⟨UpOrDown.down, Button.mouseButton d.data.detail⟩⟩ := by
            simp [RecordedEvent.tryFrom, hc2, hc3, hc4]
          rw [heval]
          constructor
          · simp only [Option.some_ne_none, false_iff, not_not]
            exact ⟨h1, h2, h3, by rw [MIN_RECORDED_EVENT, hc4]; norm_num,
              by rw [MAX_RECORDED_EVENT, hc4]; norm_num,
              fun hx => absurd hx (by rw [hc4] at *; rintro (h | h) <;> norm_num at h)⟩
          · intro e he
            obtain rfl := (Option.some.inj he).symm
            refine ⟨hstate, ?_, ?_, fun _ => rfl, ?_⟩
            · intro hx; rw [hc4] at hx; norm_num at hx
            · intro hx; rw [hc4] at hx; norm_num at hx
            · intro hx; rw [hc4] at hx; norm_num at hx
        · by_cases hc5 : d.data.code.val = 5
          · have heval : RecordedEvent.tryFrom d.data =
                some ⟨fromU16Truncated d.data.state,
                  ⟨UpOrDown.up, Button.mouseButton d.data.detail⟩⟩ := by
              simp [RecordedEvent.tryFrom, hc2, hc3, hc4, hc5]
            rw [heval]
            constructor
            · simp only [Option.some_ne_none, false_iff, not_not]
              exact ⟨h1, h2, h3, by rw [MIN_RECORDED_EVENT, hc5]; norm_num,
                by rw [MAX_RECORDED_EVENT, hc5], 
                fun hx => absurd hx (by rw [hc5] at *; rintro (h | h) <;> norm_num at h)⟩
            · intro e he
              obtain rfl := (Option.some.inj he).symm
              refine ⟨hstate, ?_, ?_, ?_, fun _ => rfl⟩
              · intro hx; rw [hc5] at hx; norm_num at hx
              · intro hx; rw [hc5] at hx; norm_num at hx
              · intro hx; rw [hc5] at hx; norm_num at hx
          · have heval : RecordedEvent.tryFrom d.data = none := by
              simp [RecordedEvent.tryFrom, hc2, hc3, hc4, hc5]
            rw [heval]
            refine ⟨⟨fun _ => ?_, fun _ => rfl⟩, fun e he => absurd he (by simp)⟩
            intro hcontra
            obtain ⟨_, _, _, hlo, hhi, _⟩ := hcontra
            rw [MIN_RECORDED_EVENT] at hlo
            rw [MAX_RECORDED_EVENT] at hhi
            omega
  · have hcb : xrecordCallback d = none := by
      unfold xrecordCallback
      rw [if_pos]
      push_neg at hgate
      by_cases h1 : d.category = XRecordFromServer
      · by_cases h2 : d.client_swapped = 0
        · right; right
          exact hgate h1 h2
        · right; left; exact h2
      · left; exact h1
    rw [hcb]
    constructor
    · constructor
      · intro _ hcontra
        exact hgate ⟨hcontra.1, hcontra.2.1, hcontra.2.2.1⟩
      · intro _; rfl
    · intro e he
      exact absurd he (by simp)


/-- C6 counterexample: a record that passes the category/byte-order/
length gate and whose event-type code 2 (KeyPress) is inside the
press-through-release range is nevertheless rejected, because its detail
byte is zero and therefore not a valid keycode — contradicting the claim
that every such record decodes to an event. -/
theorem xrecord_decode_cex :
    xrecordCallback ⟨0, 0, 8, ⟨2, 0, 0⟩⟩ = none ∧
      (0 : ℕ) = XRecordFromServer ∧
      MIN_RECORDED_EVENT ≤ (2 : ℕ) ∧ (2 : ℕ) ≤ MAX_RECORDED_EVENT := by
  decide

/-- Witness for C6 at a concrete input: a well-formed KeyPress record for
keycode 38 with state bits 0x101 decodes, and its modifier snapshot is
the low 8 bits of the state field (bit 0 only). -/
theorem xrecord_decode_witness :
    ∃ e, xrecordCallback ⟨0, 0, 8, ⟨2, 38, 257⟩⟩ = some e ∧
      e.state = Finset.univ.filter
        (fun i : Modifier => ((257 : ℕ) % 256).testBit i.val) ∧
      ((2 : ℕ) = 2 → ∃ k : Keycode, k.val = (38 : Fin 256) ∧
        e.input = ⟨UpOrDown.down, Button.key k⟩) := by
  refine ⟨⟨{0}, ⟨UpOrDown.down, Button.key ⟨38, by decide⟩⟩⟩, by decide, ?_⟩
  have h := (xrecord_decode_characterization ⟨0, 0, 8, ⟨2, 38, 257⟩⟩).2
    ⟨{0}, ⟨UpOrDown.down, Button.key ⟨38, by decide⟩⟩⟩ (by decide)
  exact ⟨h.1, h.2.1⟩

/-! ### Process supervisor backoff (src/daemon.rs, claim C7)

`run_as_daemon` keeps `sleep_time` (initially `min_sleep_time` = 50 ms)
as the current restart delay.  While a child runs, `sleep_time` holds the
delay that the next restart would sleep.  When the child dies after
elapsed time `t`, the delay is reset to the minimum if `t > sleep_time`;
the next loop iteration then sleeps the (possibly reset) delay and
doubles `sleep_time` before forking the next child.  Signals and the
re-read of init data are not modelled; the model follows one
uninterrupted run of the supervisor loop. -/

/-- `min_sleep_time` = `Duration::from_millis(50)`. -/
def min_sleep_time : ℕ := 50

/-- The post-death adjustment (src/daemon.rs lines 121-130): reset the
delay to the minimum when the child survived longer than the current
delay. -/
def afterDeath (sleep_time t : ℕ) : ℕ :=
  if t > sleep_time then min_sleep_time else sleep_time

/-- The sequence of delays slept before each restart, given the running
child's current `sleep_time` and the list of successive child lifetimes
(src/daemon.rs lines 84-137: each death adjusts the delay, the restart
sleeps it, and the stored delay doubles for the next child). -/
def restartDelays (sleep_time : ℕ) : List ℕ → List ℕ
  | [] => []
  | t :: ts =>
      let s := afterDeath sleep_time t
      s :: restartDelays (s * 2) ts

/-- All children in the list crash before their current delay elapses. -/
def allQuick : ℕ → List ℕ → Prop
  | _, [] => True
  | s, t :: ts => t ≤ s ∧ allQuick (s * 2) ts

/-- C7: the restart delay starts at the fixed minimum; as long as every
child exits before the current delay has elapsed the slept delays double
each time (they form the geometric sequence s, 2s, 4s, ...); and as soon
as a child survives longer than the current delay, the delay slept after
that crash is the minimum again. -/
theorem supervisor_backoff :
    (∀ (t : ℕ) (ts : List ℕ),
      (restartDelays min_sleep_time (t :: ts)).head? = some min_sleep_time) ∧
    (∀ (s : ℕ) (ts : List ℕ), allQuick s ts →
      restartDelays s ts = (List.range ts.length).map (fun i => s * 2 ^ i)) ∧
    (∀ (s t : ℕ) (ts : List ℕ), t > s →
      restartDelays s (t :: ts) =
        min_sleep_time :: restartDelays (min_sleep_time * 2) ts) := by
  refine ⟨?_, ?_, ?_⟩
  · intro t ts
    rw [restartDelays]
    unfold afterDeath
    split <;> rfl
  · intro s ts
    induction ts generalizing s with
    | nil => intro _; rfl
    | cons t ts ih =>
        rintro ⟨hq, hrest⟩
        rw [restartDelays]
        have hs : afterDeath s t = s := by
          unfold afterDeath
          rw [if_neg (by omega)]
        rw [hs, ih (s * 2) hrest, List.length_cons, List.range_succ_eq_map,
          List.map_cons, List.map_map]
        congr 1
        · simp
        · apply List.map_congr_left
          intro i _
          simp [pow_succ]
          ring
  · intro s t ts ht
    rw [restartDelays]
    have hs : afterDeath s t = min_sleep_time := by
      unfold afterDeath
      rw [if_pos ht]
    rw [hs]

/-- Witness for C7 at concrete inputs: two crashes at 10 ms and 20 ms,
both inside the current delay, sleep 50 ms then 100 ms (doubling), and a
crash after 300 ms with current delay 100 ms resets the next sleep to
50 ms. -/
theorem supervisor_backoff_witness :
    restartDelays min_sleep_time [10, 20] = [50, 100] ∧
      restartDelays 100 [300] = [min_sleep_time] := by
  constructor
  · have h := supervisor_backoff.2.1 min_sleep_time [10, 20]
      ⟨by norm_num [min_sleep_time], by norm_num [min_sleep_time], trivial⟩
    rw [h]
    decide
  · have h := supervisor_backoff.2.2 100 300 [] (by norm_num)
    rw [h]
    rfl

/-! ### Key-grab installation (src/main.rs, claim C3)

`AppState::grab_keys_for_window` (src/main.rs lines 259-278) walks the
window tree and, at every visited window, runs the config visitor over
all key mappings.  For a mapping whose trigger is a literal keycode it
calls `AppState::grab_key(child, keycode, None)` — and `None` maps to
the `AnyModifier` wildcard in `AppState::grab_key` (src/main.rs lines
238-257); a symbolic trigger is skipped entirely, and a zero literal
keycode panics in `Keycode::try_from(...).expect`.  `mod_sets()` is
never consulted on this path. -/

/-- The parameters of one `XGrabKey` request issued through
`AppState::grab_key`: `modifiers = none` is the `AnyModifier` wildcard
that a `None` argument maps to. -/
structure IssuedGrab where
  window : WindowRef
  keycode : Keycode
  modifiers : Option ModifierSet
deriving DecidableEq

/-- `AppState::grab_key` (src/main.rs lines 238-257), recorded as the
issued request. -/
def mainGrabKey (window : WindowRef) (keycode : Keycode)
    (modifiers : Option ModifierSet) : IssuedGrab :=
  ⟨window, keycode, modifiers⟩

/-- The visitor body of `grab_keys_for_window` for one mapping: grab a
literal-code trigger once with `None` (checking the keycode is nonzero,
else panic), skip a symbolic trigger. -/
def grabsForMapping (window : WindowRef) (m : KeyMapping) : Option (List IssuedGrab) :=
  match m.input with
  | .code c => (Keycode.tryFrom c).map (fun k => [mainGrabKey window k none])
  | .sym _ => some []

/-- The `config.visit_key_mappings` loop at one visited window. -/
def grabsForWindow (mappings : List KeyMapping) (w : WindowRef) :
    Option (List IssuedGrab) :=
  match mappings with
  | [] => some []
  | m :: rest =>
      Option.bind (grabsForMapping w m) fun gs =>
      Option.bind (grabsForWindow rest w) fun gss =>
      some (gs ++ gss)

/-- `AppState::grab_keys_for_window` over the list of windows the
`visit_window_tree` traversal yields (the tree is external input; the
list is the visit order). -/
def grab_keys_for_window (mappings : List KeyMapping) (windows : List WindowRef) :
    Option (List IssuedGrab) :=
  match windows with
  | [] => some []
  | w :: ws =>
      Option.bind (grabsForWindow mappings w) fun gs =>
      Option.bind (grab_keys_for_window mappings ws) fun gss =>
      some (gs ++ gss)

/-- Whether a mapping's trigger is a literal keycode. -/
def isCodeTrigger (m : KeyMapping) : Bool :=
  match m.input with
  | .code _ => true
  | .sym _ => false

/-- The grab set claim C3 asserts is registered, written from the claim
for comparison with the code: one grab per window, rule, and concrete
modifier combination returned by `mod_sets()` on the rule's `ModSpec`. -/
def claimedGrabs (rules : List (Keycode × ModSpec)) (windows : List WindowRef) :
    List IssuedGrab :=
  windows.flatMap fun w => rules.flatMap fun r =>
    r.2.mod_sets.map fun ms => ⟨w, r.1, some ms⟩

/-- A concrete keycode 38 for the C3 counterexample and witness. -/
def kc38 : Keycode := ⟨38, by decide⟩

lemma grabsForWindow_anymodifier (w : WindowRef) (mappings : List KeyMapping)
    (h : ∀ m ∈ mappings, ∀ c : Fin 256, m.input = KeySpec.code c → c ≠ 0) :
    ∃ lw, grabsForWindow mappings w = some lw ∧
      (∀ g ∈ lw, g.modifiers = none ∧ g.window = w) ∧
      lw.length = mappings.countP isCodeTrigger := by
  induction mappings with
  | nil => exact ⟨[], rfl, by simp, by simp⟩
  | cons m ms ih =>
      obtain ⟨lw, hlw, hmods, hlen⟩ :=
        ih (fun m' hm' => h m' (List.mem_cons_of_mem m hm'))
      cases hm : m.input with
      | code c =>
          have hc : c ≠ 0 := h m (List.mem_cons_self m ms) c hm
          have heval : grabsForMapping w m = some [mainGrabKey w ⟨c, hc⟩ none] := by
            simp [grabsForMapping, hm, Keycode.tryFrom, hc]
          refine ⟨mainGrabKey w ⟨c, hc⟩ none :: lw, ?_, ?_, ?_⟩
          · rw [grabsForWindow, heval, hlw]
            rfl
          · intro g hg
            rcases List.mem_cons.mp hg with hg | hg
            · subst hg; exact ⟨rfl, rfl⟩
            · exact hmods g hg
          · rw [List.countP_cons, List.length_cons, hlen]
            simp [isCodeTrigger, hm]
      | sym str =>
          have heval : grabsForMapping w m = some [] := by
            simp [grabsForMapping, hm]
          refine ⟨lw, ?_, hmods, ?_⟩
          · rw [grabsForWindow, heval, hlw]
            rfl
          · rw [List.countP_cons, hlen]
            simp [isCodeTrigger, hm]

/-- C3 (amended): at startup the engine issues, for every visited window
and every rule whose trigger is a literal nonzero keycode, exactly one
grab — with the `AnyModifier` wildcard, not one grab per `mod_sets()`
combination; rules with symbolic triggers get no grab at all. -/
theorem grab_install_anymodifier (mappings : List KeyMapping)
    (windows : List WindowRef)
    (h : ∀ m ∈ mappings, ∀ c : Fin 256, m.input = KeySpec.code c → c ≠ 0) :
    ∃ l, grab_keys_for_window mappings windows = some l ∧
      (∀ g ∈ l, g.modifiers = none) ∧
      l.length = windows.length * (mappings.countP isCodeTrigger) := by
  induction windows with
  | nil => exact ⟨[], rfl, by simp, by simp⟩
  | cons w ws ih =>
      obtain ⟨l, hl, hmods, hlen⟩ := ih
      obtain ⟨lw, hlw, hwmods, hwlen⟩ := grabsForWindow_anymodifier w mappings h
      refine ⟨lw ++ l, ?_, ?_, ?_⟩
      · rw [grab_keys_for_window, hlw, hl]
        rfl
      · intro g hg
        rcases List.mem_append.mp hg with hg | hg
        · exact (hwmods g hg).1
        · exact hmods g hg
      · rw [List.length_append, hwlen, hlen, List.length_cons]
        ring

set_option maxRecDepth 4096 in
/-- Witness for C3 (amended) at a concrete input: one rule with literal
trigger 38 over one window yields exactly one AnyModifier grab. -/
theorem grab_install_anymodifier_witness :
    ∃ l, grab_keys_for_window
        [⟨KeySpec.code 38, KeySeq.key (KeySpec.code 38)⟩] [(0 : WindowRef)] = some l ∧
      (∀ g ∈ l, g.modifiers = none) ∧
      l.length = [(0 : WindowRef)].length *
        ([⟨KeySpec.code 38, KeySeq.key (KeySpec.code 38)⟩].countP isCodeTrigger) :=
  grab_install_anymodifier
    [⟨KeySpec.code 38, KeySeq.key (KeySpec.code 38)⟩] [(0 : WindowRef)] (by decide)

/-- C3 counterexample: for a single rule (trigger keycode 38, ModSpec
requiring Shift and forbidding everything else) at a single window, the
set of grabs the code issues is one AnyModifier grab — not the set
{trigger} x mod_sets (which here is the single combination {Shift}) the
claim asserts. -/
theorem grab_install_cex :
    (grab_keys_for_window
        [⟨KeySpec.code 38, KeySeq.key (KeySpec.code 38)⟩] [(0 : WindowRef)]).map
      (fun l => decide (l.toFinset =
        (claimedGrabs
          [(kc38, ⟨.required, .forbidden, .forbidden, .forbidden, .forbidden,
            .forbidden, .forbidden, .forbidden⟩)] [(0 : WindowRef)]).toFinset)) =
      some false := by
  decide

end Autokey
